import Mathlib

/-!
Shallow embedding of the chunking and agent-selection core of the
`rag_agent` repository (source files `src/utils/embeddings.py` and
`src/services/agent_registry.py`), together with theorems settling the
specification claims about that core.  Strings are modelled as `List Char`,
Python dict-shaped JSON values as an explicit inductive type, and the
database-backed agent collection as an explicit list threaded through the
operations.
-/

namespace RagAgent

/-! ### Chunker (source: `src/utils/embeddings.py`, `chunk_text`) -/

/-- Python slice `s[-n:]` on a string modelled as `List Char`, for a
non-negative `n`.  Note that `s[-0:]` is the whole string in Python. -/
def pySliceLast (s : List Char) (n : Nat) : List Char :=
  if n = 0 then s else s.drop (s.length - n)

/-- Overlap seed taken from the previous completed chunk, as in the source:
`chunks[-1][-chunk_overlap:] if len(chunks[-1]) > chunk_overlap else chunks[-1]`. -/
def overlapFrom (chunk_overlap : Nat) (prev : List Char) : List Char :=
  if prev.length > chunk_overlap then pySliceLast prev chunk_overlap else prev

/-- One iteration of the paragraph loop in `chunk_text`.  The state is the pair
`(chunks, current_chunk)`. -/
def chunkStep (chunk_size chunk_overlap : Nat)
    (st : List (List Char) × List Char) (paragraph : List Char) :
    List (List Char) × List Char :=
  let chunks := st.1
  let current := st.2
  if current.length + paragraph.length + 1 > chunk_size then
    let chunks1 := if current = [] then chunks else chunks ++ [current]
    match chunks1.getLast? with
    | some prev => (chunks1, overlapFrom chunk_overlap prev ++ '\n' :: paragraph)
    | none => (chunks1, paragraph)
  else
    (chunks, if current = [] then paragraph else current ++ '\n' :: paragraph)

/-- Body of `chunk_text` once the text is known to be non-empty and the two
parameters are resolved: the short-text branch, the paragraph loop and the
final flush of the buffer. -/
def chunk_core (chunk_size chunk_overlap : Nat) (text : List Char) :
    List (List Char) :=
  if text.length ≤ chunk_size then [text]
  else
    let paragraphs := text.splitOn '\n'
    let st := paragraphs.foldl (chunkStep chunk_size chunk_overlap) ([], [])
    if st.2 = [] then st.1 else st.1 ++ [st.2]

/-- Result of one call to the `get_rag_settings()` collaborator: either the
`(chunk_size, chunk_overlap)` pair it yields or an exception. -/
abbrev SettingsFetch := Except Unit (Nat × Nat)

/-- Resolution of the optional `chunk_size` / `chunk_overlap` arguments of
`chunk_text`; the settings collaborator is consulted (and may raise) only
when at least one argument is missing. -/
def resolveParams (gs : SettingsFetch) :
    Option Nat → Option Nat → Except Unit (Nat × Nat)
  | some cs, some co => .ok (cs, co)
  | cs?, co? =>
    match gs with
    | .ok (dcs, dco) => .ok (cs?.getD dcs, co?.getD dco)
    | .error e => .error e

/-- `chunk_text` with its `try/except` boundary.  The only fallible operation
inside the `try` body is the settings fetch (the remaining work is total
string processing); the `except` branch returns `[text] if text else []`,
and the `if not text` test precedes the settings fetch in the source. -/
def chunk_text (gs : SettingsFetch) (text : List Char)
    (chunk_size chunk_overlap : Option Nat) : List (List Char) :=
  if text = [] then []
  else
    match resolveParams gs chunk_size chunk_overlap with
    | .ok (cs, co) => chunk_core cs co text
    | .error _ => [text]

/-! ### Python values (rule objects and document metadata) -/

/-- Primitive JSON/Python values that can appear inside a rule list or as a
metadata field. -/
inductive PyPrim where
  | str (s : List Char)
  | int (n : Int)
  | bool (b : Bool)
  | none
deriving DecidableEq

/-- A value stored under a key of a dict-shaped rules / metadata object:
either a primitive or a (flat) list of primitives. -/
inductive PyVal where
  | prim (p : PyPrim)
  | list (l : List PyPrim)
deriving DecidableEq

/-- Python `str()` on a primitive value. -/
def pyStr : PyPrim → List Char
  | .str s => s
  | .int n => (toString n).data
  | .bool b => if b then "True".data else "False".data
  | .none => "None".data

/-- Python truthiness of a primitive value. -/
def truthyPrim : PyPrim → Bool
  | .str s => !s.isEmpty
  | .int n => n != 0
  | .bool b => b
  | .none => false

/-- Python truthiness. -/
def truthy : PyVal → Bool
  | .prim p => truthyPrim p
  | .list l => !l.isEmpty

/-- Python `a or b`. -/
def pyOr (a b : PyVal) : PyVal := if truthy a then a else b

/-- Python `isinstance(v, list)`. -/
def PyVal.isList : PyVal → Bool
  | .list _ => true
  | .prim _ => false

/-- Python `str.lower()`. -/
def lowerL (s : List Char) : List Char := s.map Char.toLower

/-- Python substring containment `needle in hay`. -/
def inStr (needle : List Char) : List Char → Bool
  | [] => needle.isEmpty
  | c :: t => needle.isPrefixOf (c :: t) || inStr needle t

/-- A dict-shaped rules (or metadata) object. -/
abbrev Rules := List (String × PyVal)

/-- Python `rules.get(k)`, with `Option.none` for a missing key. -/
def pyGet (rules : Rules) (k : String) : Option PyVal :=
  (rules.find? (fun kv => kv.1 == k)).map (fun kv => kv.2)

/-- The string entries of a rule list, in order (Python generator filter
`... for kw in l if isinstance(kw, str)`). -/
def strEntries (l : List PyPrim) : List (List Char) :=
  l.filterMap (fun x =>
    match x with
    | .str s => some s
    | _ => Option.none)

/-! ### Agent registry (source: `src/services/agent_registry.py`) -/

/-- A retrieved document as consumed by the registry, which reads only the
metadata mapping. -/
structure Doc where
  metadata : Rules
deriving DecidableEq

/-- Python `md.get(k)` with `None` (not `Option`) for a missing key. -/
def mdGet (md : Rules) (k : String) : PyVal :=
  ((md.find? (fun kv => kv.1 == k)).map (fun kv => kv.2)).getD (.prim .none)

/-- `_doc_types_from_results`: collect `md.get("type") or md.get("doc_type")`
for each document, keeping lower-cased string values only. -/
def _doc_types_from_results (relevant_docs : List Doc) : List (List Char) :=
  relevant_docs.filterMap (fun d =>
    match pyOr (mdGet d.metadata "type") (mdGet d.metadata "doc_type") with
    | .prim (.str s) => some (lowerL s)
    | _ => Option.none)

/-- Rule 1 of `_matches_rules`: `doc_type_any_of`.  The check runs only when
the value is a non-empty list; it normalizes the entries with
`str(t).lower()` and asks whether some element of `doc_types` (as given)
is among them. -/
def ruleDocType (rules : Rules) (doc_types : List (List Char)) : Bool :=
  match pyGet rules "doc_type_any_of" with
  | some (.list l) =>
    if l.isEmpty then true
    else doc_types.any (fun dt => l.any (fun t => lowerL (pyStr t) == dt))
  | _ => true

/-- Rule 2 of `_matches_rules`: `keyword_any_of` against the lower-cased
query; non-string entries are filtered out by the generator. -/
def ruleKwAny (rules : Rules) (uq : List Char) : Bool :=
  match pyGet rules "keyword_any_of" with
  | some (.list l) =>
    if l.isEmpty then true
    else (strEntries l).any (fun kw => inStr (lowerL kw) uq)
  | _ => true

/-- Rule 3 of `_matches_rules`: `keyword_all_of` against the lower-cased
query; non-string entries are filtered out by the generator. -/
def ruleKwAll (rules : Rules) (uq : List Char) : Bool :=
  match pyGet rules "keyword_all_of" with
  | some (.list l) =>
    if l.isEmpty then true
    else (strEntries l).all (fun kw => inStr (lowerL kw) uq)
  | _ => true

/-- `_matches_rules` from the source; `user_query = Option.none` models a
Python `None` query, which `(user_query or "")` turns into `""`. -/
def _matches_rules (rules : Rules) (doc_types : List (List Char))
    (user_query : Option (List Char)) : Bool :=
  if rules.isEmpty then false
  else
    let uq := lowerL (user_query.getD [])
    ruleDocType rules doc_types && ruleKwAny rules uq && ruleKwAll rules uq

/-- An agent record (`models.Agent`); timestamps are omitted, nothing in the
core reads them. -/
structure Agent where
  id : Nat
  name : String
  description : Option String
  role_system_prompt : String
  llm_model : String
  temperature : Rat
  max_tokens : Int
  response_format : Option String
  selection_rules : Rules
deriving DecidableEq

/-- The order used by `list_agents` (SQL `ORDER BY id ASC`). -/
def agentLe (a b : Agent) : Prop := a.id ≤ b.id

instance : DecidableRel agentLe := fun a b => Nat.decLe a.id b.id

instance : IsTotal Agent agentLe := ⟨fun a b => Nat.le_total a.id b.id⟩

instance : IsTrans Agent agentLe := ⟨fun _ _ _ => Nat.le_trans⟩

/-- `list_agents`: the stored collection, ordered by id ascending. -/
def list_agents (registry : List Agent) : List Agent :=
  registry.insertionSort agentLe

/-- The loop of `select_agent_for_request`; `rules = agent.selection_rules or {}`
is the identity here because a missing rules object is modelled as `[]`. -/
def selectFirst (doc_types : List (List Char)) (user_query : Option (List Char)) :
    List Agent → Option (Agent × Rules)
  | [] => Option.none
  | a :: rest =>
    if _matches_rules a.selection_rules doc_types user_query then
      some (a, a.selection_rules)
    else selectFirst doc_types user_query rest

/-- `select_agent_for_request` from the source. -/
def select_agent_for_request (registry : List Agent) (relevant_docs : List Doc)
    (user_query : Option (List Char)) : Option (Agent × Rules) :=
  let agents := list_agents registry
  if agents.isEmpty then Option.none
  else selectFirst (_doc_types_from_results relevant_docs) user_query agents

/-- Next value of the autoincrement primary key of the agents table. -/
def nextId (st : List Agent) : Nat := (st.map (fun a => a.id)).foldr max 0 + 1

/-- `create_agent`: applies the `float()` / `int()` coercions (identities here,
the model takes the numeric values directly), persists the record and returns
it.  The only failure is the database uniqueness constraint on `name`; no
range check on `temperature` or `max_tokens` appears in the source. -/
def create_agent (st : List Agent) (name : String) (description : Option String)
    (role_system_prompt llm_model : String) (temperature : Rat) (max_tokens : Int)
    (response_format : Option String) (selection_rules : Rules) :
    Except Unit (List Agent × Agent) :=
  if st.any (fun a => a.name == name) then .error ()
  else
    let a : Agent := { id := nextId st, name, description, role_system_prompt,
                       llm_model, temperature, max_tokens, response_format,
                       selection_rules }
    .ok (st ++ [a], a)

/-- The shared `rag_rigor` prompt prefix seeded by `ensure_default_agents`. -/
def ragRigor : String :=
  "You are a strict RAG agent. Use ONLY retrieved documents. If insufficient info, reply: \x27I\x27m sorry, I couldn\x27t find information about that in my knowledge base.\x27 Respond in compact JSON with keys \x27main\x27 and \x27next_steps\x27."

/-- `ensure_default_agents`: a no-op when any agent exists, otherwise seeds the
`documentation` and `course` agents through `create_agent`. -/
def ensure_default_agents (st : List Agent) : Except Unit (List Agent) :=
  if st.length > 0 then .ok st
  else do
    let (st1, _) ← create_agent st "documentation"
      (some "Agent specialized for technical documentation")
      (ragRigor ++ " Prefer concise technical explanations. Include document references inline.")
      "gpt-4o" ((3 : Rat) / 10) 1200 (some "json_object")
      [("doc_type_any_of", PyVal.list [PyPrim.str "documentation".data])]
    let (st2, _) ← create_agent st1 "course"
      (some "Agent specialized for course/help content")
      (ragRigor ++ " Provide helpful, friendly tone and actionable next steps.")
      "gpt-4o" ((2 : Rat) / 5) 1200 (some "json_object")
      [("doc_type_any_of", PyVal.list [PyPrim.str "course".data])]
    .ok st2

/-! ### Definitions written from the specification / claim text, for the
refinement claims that compare the code against the spec wording. -/

/-- Python `isinstance(p, str)` on a primitive. -/
def isStrPrim : PyPrim → Bool
  | .str _ => true
  | _ => false

/-- A rule value that is a flat list of strings (the shape the spec
describes for the three rule keys). -/
def isStrList : PyVal → Bool
  | .list l => l.all isStrPrim
  | .prim _ => false

/-- Well-formed rules in the sense of the spec: each of the three rule keys,
when present, holds a list of strings. -/
def wfRules (rules : Rules) : Bool :=
  ["doc_type_any_of", "keyword_any_of", "keyword_all_of"].all (fun k =>
    match pyGet rules k with
    | some v => isStrList v
    | Option.none => true)

/-- Claim C4 sub-condition for `doc_type_any_of`, written from the claim text:
absent/empty, or at least one entry appears case-insensitively in
`doc_types` (both sides lower-cased). -/
def specDocTypeClaim (rules : Rules) (doc_types : List (List Char)) : Bool :=
  match pyGet rules "doc_type_any_of" with
  | some (.list l) =>
    l.isEmpty || l.any (fun t =>
      match t with
      | .str s => doc_types.any (fun dt => lowerL dt == lowerL s)
      | _ => false)
  | _ => true

/-- Amended C4 sub-condition for `doc_type_any_of`: the entry is lower-cased
and compared for equality with the `doc_types` elements as given. -/
def specDocTypeAmended (rules : Rules) (doc_types : List (List Char)) : Bool :=
  match pyGet rules "doc_type_any_of" with
  | some (.list l) =>
    l.isEmpty || l.any (fun t =>
      match t with
      | .str s => doc_types.any (fun dt => dt == lowerL s)
      | _ => false)
  | _ => true

/-- Claim C4 sub-condition for `keyword_any_of`: absent/empty, or at least one
keyword occurs as a case-insensitive substring of the query. -/
def specKwAny (rules : Rules) (q : List Char) : Bool :=
  match pyGet rules "keyword_any_of" with
  | some (.list l) =>
    l.isEmpty || l.any (fun t =>
      match t with
      | .str s => inStr (lowerL s) (lowerL q)
      | _ => false)
  | _ => true

/-- Claim C4 sub-condition for `keyword_all_of`: absent/empty, or every
keyword occurs as a case-insensitive substring of the query. -/
def specKwAll (rules : Rules) (q : List Char) : Bool :=
  match pyGet rules "keyword_all_of" with
  | some (.list l) =>
    l.isEmpty || l.all (fun t =>
      match t with
      | .str s => inStr (lowerL s) (lowerL q)
      | _ => true)
  | _ => true

/-- The predicate of claim C4 exactly as stated (conjunction of the three
sub-conditions, with the symmetric case-insensitive doc-type comparison). -/
def matchesClaimC4 (rules : Rules) (doc_types : List (List Char)) (q : List Char) : Bool :=
  specDocTypeClaim rules doc_types && specKwAny rules q && specKwAll rules q

/-- The amended predicate of claim C4: identical except that only the rule
entry is lower-cased in the doc-type comparison. -/
def matchesAmendedC4 (rules : Rules) (doc_types : List (List Char)) (q : List Char) : Bool :=
  specDocTypeAmended rules doc_types && specKwAny rules q && specKwAll rules q

/-- Claim C7 extraction exactly as stated: the `type` value, falling back to
`doc_type` only when `type` is absent, keeping lower-cased string values. -/
def docTypesClaimC7 (relevant_docs : List Doc) : List (List Char) :=
  relevant_docs.filterMap (fun d =>
    let t :=
      match pyGet d.metadata "type" with
      | some v => v
      | Option.none => mdGet d.metadata "doc_type"
    match t with
    | .prim (.str s) => some (lowerL s)
    | _ => Option.none)

/-- Amended C7 extraction: fall back to `doc_type` whenever the `type` value
is missing or falsy. -/
def docTypesAmendedC7 (relevant_docs : List Doc) : List (List Char) :=
  relevant_docs.filterMap (fun d =>
    let tv := mdGet d.metadata "type"
    let t := if truthy tv then tv else mdGet d.metadata "doc_type"
    match t with
    | .prim (.str s) => some (lowerL s)
    | _ => Option.none)

/-- The overlap prefix described by claim C6: the last `chunk_overlap`
characters of the previous chunk, or the whole previous chunk when it is
shorter than `chunk_overlap`. -/
def overlapClaimC6 (chunk_overlap : Nat) (prev : List Char) : List Char :=
  if prev.length < chunk_overlap then prev else prev.drop (prev.length - chunk_overlap)

/-- Relation between consecutive chunks established by the splitting loop:
the later chunk starts with the overlap seed taken from the earlier chunk,
a newline, and one paragraph of the text. -/
def SeedRel (paragraphs : List (List Char)) (chunk_overlap : Nat)
    (a b : List Char) : Prop :=
  ∃ p ∈ paragraphs, overlapFrom chunk_overlap a ++ '\n' :: p <+: b

/-- Replace the value stored under key `k` of a rules object (used to state
that a malformed value behaves like an empty/absent one). -/
def setKey (rules : Rules) (k : String) (v : PyVal) : Rules :=
  rules.map (fun kv => if kv.1 == k then (kv.1, v) else kv)

/-! ### Concrete fixtures used by counterexamples and witnesses -/

/-- The first default agent as persisted by `ensure_default_agents` on an
empty registry. -/
def defaultDocumentationAgent : Agent :=
  ⟨1, "documentation", some "Agent specialized for technical documentation",
    ragRigor ++ " Prefer concise technical explanations. Include document references inline.",
    "gpt-4o", (3 : Rat) / 10, 1200, some "json_object",
    [("doc_type_any_of", PyVal.list [PyPrim.str "documentation".data])]⟩

/-- The second default agent as persisted by `ensure_default_agents` on an
empty registry. -/
def defaultCourseAgent : Agent :=
  ⟨2, "course", some "Agent specialized for course/help content",
    ragRigor ++ " Provide helpful, friendly tone and actionable next steps.",
    "gpt-4o", (2 : Rat) / 5, 1200, some "json_object",
    [("doc_type_any_of", PyVal.list [PyPrim.str "course".data])]⟩

/-- Fixture: an agent matching documents of type `documentation`. -/
def agentDocs : Agent :=
  ⟨1, "docs", Option.none, "p", "m", 1, 100, Option.none,
    [("doc_type_any_of", PyVal.list [PyPrim.str "documentation".data])]⟩

/-- Fixture: a later agent whose rules also match `documentation` documents. -/
def agentBoth : Agent :=
  ⟨2, "both", Option.none, "p", "m", 1, 100, Option.none,
    [("doc_type_any_of",
      PyVal.list [PyPrim.str "course".data, PyPrim.str "documentation".data])]⟩

/-- Fixture: a retrieval result with one document of type `documentation`. -/
def docsDocumentation : List Doc :=
  [⟨[("type", PyVal.prim (PyPrim.str "Documentation".data))]⟩]

/-- Fixture: a document whose `type` is the empty string and whose `doc_type`
is `"x"`. -/
def docEmptyType : Doc :=
  ⟨[("type", PyVal.prim (PyPrim.str [])),
    ("doc_type", PyVal.prim (PyPrim.str "x".data))]⟩

/-- Decidable equality for `Except`, used to evaluate the registry
operations on concrete inputs. -/
instance exceptDecEq {ε α : Type} [DecidableEq ε] [DecidableEq α] :
    DecidableEq (Except ε α)
  | .error e, .error f =>
    if h : e = f then isTrue (by rw [h]) else isFalse (by simp [h])
  | .error _, .ok _ => isFalse (by simp)
  | .ok _, .error _ => isFalse (by simp)
  | .ok a, .ok b =>
    if h : a = b then isTrue (by rw [h]) else isFalse (by simp [h])

/-! ### Theorems -/

/-- C1 (counterexample): with `chunk_size = 10`, `chunk_overlap = 5` and a
text of two paragraphs of length 10 each, the hypotheses of the claim hold
but the second returned chunk has length 16 > `chunk_size`; the overlap seed
plus the newline push a chunk past the bound. -/
theorem c1_counterexample :
    "aaaaaaaaaa\nbbbbbbbbbb".data.length > 10 ∧
    (0 : Nat) < 10 ∧ (0 : Nat) ≤ 5 ∧ (5 : Nat) < 10 ∧
    ("aaaaaaaaaa\nbbbbbbbbbb".data.splitOn '\n').all (fun p => p.length ≤ 10) = true ∧
    chunk_text (Except.ok (500, 30)) "aaaaaaaaaa\nbbbbbbbbbb".data (some 10) (some 5) =
      ["aaaaaaaaaa".data, "aaaaa\nbbbbbbbbbb".data] ∧
    (chunk_text (Except.ok (500, 30)) "aaaaaaaaaa\nbbbbbbbbbb".data (some 10) (some 5)).all
      (fun c => c.length ≤ 10) = false := by
  decide

/-- C3 (counterexample): `create_agent` performs no range validation.  With
`temperature = 5` (outside 0.0–2.0) and `max_tokens = -1` (not positive) the
call succeeds and the record is persisted, contradicting the claim that a
validation error is raised and nothing is stored. -/
theorem c3_counterexample :
    ¬ ((5 : Rat) ≤ 2) ∧ ((-1 : Int) ≤ 0) ∧
    create_agent [] "bad" Option.none "p" "m" 5 (-1) Option.none [] =
      .ok ([⟨1, "bad", Option.none, "p", "m", 5, -1, Option.none, []⟩],
           ⟨1, "bad", Option.none, "p", "m", 5, -1, Option.none, []⟩) := by
  decide

/-- C3 (amended): `create_agent` applies only the numeric coercions and the
uniqueness check; for any temperature and max_tokens whatsoever, when the
name is unused the call succeeds and persists the record with exactly the
given values — no range check exists. -/
theorem c3_amended (st : List Agent) (name : String) (description : Option String)
    (role_system_prompt llm_model : String) (temperature : Rat) (max_tokens : Int)
    (response_format : Option String) (selection_rules : Rules)
    (hname : st.any (fun a => a.name == name) = false) :
    create_agent st name description role_system_prompt llm_model temperature
        max_tokens response_format selection_rules =
      .ok (st ++ [⟨nextId st, name, description, role_system_prompt, llm_model,
                   temperature, max_tokens, response_format, selection_rules⟩],
           ⟨nextId st, name, description, role_system_prompt, llm_model,
            temperature, max_tokens, response_format, selection_rules⟩) := by
  simp [create_agent, hname]

/-- C3 (witness): the amended statement applied to an empty registry with an
out-of-range temperature and a negative max_tokens. -/
theorem c3_witness :
    create_agent [] "bad2" Option.none "p" "m" 99 (-7) Option.none [] =
      .ok ([⟨nextId [], "bad2", Option.none, "p", "m", 99, -7, Option.none, []⟩],
           ⟨nextId [], "bad2", Option.none, "p", "m", 99, -7, Option.none, []⟩) :=
  c3_amended [] "bad2" Option.none "p" "m" 99 (-7) Option.none [] (by decide)

/-- C4 (counterexample): the code lower-cases only the rule entries, not the
`doc_types` elements.  With rules `{doc_type_any_of: ["Course"]}` and
`doc_types = ["Course"]` the predicate of the claim (case-insensitive on both
sides) is true while `_matches_rules` returns false. -/
theorem c4_counterexample :
    ([("doc_type_any_of", PyVal.list [PyPrim.str "Course".data])] : Rules).isEmpty = false ∧
    _matches_rules [("doc_type_any_of", PyVal.list [PyPrim.str "Course".data])]
      ["Course".data] (some []) = false ∧
    matchesClaimC4 [("doc_type_any_of", PyVal.list [PyPrim.str "Course".data])]
      ["Course".data] [] = true := by
  decide

/-- C6 (counterexample): with `chunk_overlap = 0` the source computes
`chunks[-1][-0:]`, which is the whole previous chunk, so the second chunk is
`"aaa\naaa..."`-shaped; the overlap prefix described by the claim (last 0 characters,
then a newline, then the triggering paragraph) is a prefix of no chunk. -/
theorem c6_counterexample :
    chunk_text (Except.ok (500, 30)) "aaa\nbbb".data (some 3) (some 0) =
      ["aaa".data, "aaa\nbbb".data] ∧
    overlapClaimC6 0 "aaa".data = [] ∧
    (("aaa\nbbb".data.splitOn '\n').any
      (fun p => (overlapClaimC6 0 "aaa".data ++ '\n' :: p).isPrefixOf
        "aaa\nbbb".data)) = false := by
  decide

/-- C7 (counterexample): the fallback from `type` to `doc_type` happens on any
falsy value, not only on absence.  For a document with `type = ""` and
`doc_type = "x"` the code yields `["x"]` while the claim as stated keeps the
(string) value of `type` and yields `[""]`. -/
theorem c7_counterexample :
    _doc_types_from_results [docEmptyType] = ["x".data] ∧
    docTypesClaimC7 [docEmptyType] = [[]] ∧
    _doc_types_from_results [docEmptyType] ≠ docTypesClaimC7 [docEmptyType] := by
  decide

/-- C7 (amended): the derived `doc_types` list contains, in document order,
the lower-cased `type` value, falling back to `doc_type` whenever the `type`
value is missing or falsy, keeping string values only. -/
theorem c7_amended (relevant_docs : List Doc) :
    _doc_types_from_results relevant_docs = docTypesAmendedC7 relevant_docs := rfl

/-- C8: the `try/except` of `chunk_text` converts any internal error (only the
settings fetch can raise once the text is known non-empty) into the fallback
result `[text] if text else []`; nothing propagates to the caller. -/
theorem c8_confirmed (gs : SettingsFetch) (text : List Char)
    (chunk_size chunk_overlap : Option Nat) (e : Unit)
    (herr : resolveParams gs chunk_size chunk_overlap = .error e) :
    chunk_text gs text chunk_size chunk_overlap = if text = [] then [] else [text] := by
  by_cases ht : text = [] <;> simp [chunk_text, ht, herr]

/-- C8 (witness): a failing settings fetch with omitted parameters returns the
whole text as one chunk. -/
theorem c8_witness :
    chunk_text (Except.error ()) "abc".data Option.none Option.none = ["abc".data] := by
  have h := c8_confirmed (Except.error ()) "abc".data Option.none Option.none () (by decide)
  rw [h]
  decide

/-- C9: `ensure_default_agents` is a no-op on any non-empty registry, and on
the empty registry persists exactly the two default agents, named
`documentation` and `course` with the stated selection rules; running it
again on the seeded registry changes nothing, leaving exactly two agents. -/
theorem c9_confirmed :
    (∀ st : List Agent, st ≠ [] → ensure_default_agents st = .ok st) ∧
    ensure_default_agents [] = .ok [defaultDocumentationAgent, defaultCourseAgent] ∧
    defaultDocumentationAgent.name = "documentation" ∧
    defaultDocumentationAgent.selection_rules =
      [("doc_type_any_of", PyVal.list [PyPrim.str "documentation".data])] ∧
    defaultCourseAgent.name = "course" ∧
    defaultCourseAgent.selection_rules =
      [("doc_type_any_of", PyVal.list [PyPrim.str "course".data])] ∧
    ensure_default_agents [defaultDocumentationAgent, defaultCourseAgent] =
      .ok [defaultDocumentationAgent, defaultCourseAgent] ∧
    [defaultDocumentationAgent, defaultCourseAgent].length = 2 := by
  refine ⟨?_, rfl, rfl, rfl, rfl, rfl, rfl, rfl⟩
  intro st h
  have hlen : 0 < st.length := List.length_pos.mpr h
  simp [ensure_default_agents, hlen]

/-- C9 (witness): the no-op branch applied to a concrete non-empty registry. -/
theorem c9_witness :
    ensure_default_agents [agentDocs] = .ok [agentDocs] :=
  c9_confirmed.1 [agentDocs] (by decide)

/-- Helper: a successful `selectFirst` on a sorted agent list returns the
first match, which has minimal id among all matches. -/
lemma selectFirst_spec {doc_types : List (List Char)} {q : Option (List Char)} :
    ∀ {l : List Agent}, List.Sorted agentLe l →
      ∀ {a : Agent} {r : Rules}, selectFirst doc_types q l = some (a, r) →
        r = a.selection_rules ∧ a ∈ l ∧
        _matches_rules a.selection_rules doc_types q = true ∧
        ∀ b ∈ l, _matches_rules b.selection_rules doc_types q = true → a.id ≤ b.id := by
  intro l
  induction l with
  | nil => intro _ a r h; simp [selectFirst] at h
  | cons a0 rest ih =>
    intro hs a r h
    by_cases hm : _matches_rules a0.selection_rules doc_types q = true
    · rw [selectFirst, if_pos hm] at h
      obtain ⟨ha, hr⟩ := Prod.mk.injEq .. ▸ Option.some.injEq .. ▸ h
      subst ha
      refine ⟨hr.symm, List.mem_cons_self a0 rest, hm, ?_⟩
      intro b hb hmb
      rcases List.mem_cons.mp hb with hb0 | hbr
      · exact hb0 ▸ Nat.le_refl _
      · exact List.rel_of_sorted_cons hs b hbr
    · rw [selectFirst, if_neg hm] at h
      obtain ⟨hr, hmem, hma, hmin⟩ := ih hs.of_cons h
      refine ⟨hr, List.mem_cons_of_mem a0 hmem, hma, ?_⟩
      intro b hb hmb
      rcases List.mem_cons.mp hb with hb0 | hbr
      · exact absurd (hb0 ▸ hmb) hm
      · exact hmin b hbr hmb

/-- Helper: `selectFirst` succeeds whenever some agent of the list matches. -/
lemma selectFirst_isSome {doc_types : List (List Char)} {q : Option (List Char)} :
    ∀ {l : List Agent},
      (∃ a ∈ l, _matches_rules a.selection_rules doc_types q = true) →
      (selectFirst doc_types q l).isSome = true := by
  intro l
  induction l with
  | nil => rintro ⟨a, ha, _⟩; simp at ha
  | cons a0 rest ih =>
    rintro ⟨a, ha, hm⟩
    by_cases h0 : _matches_rules a0.selection_rules doc_types q = true
    · simp [selectFirst, h0]
    · have har : a ∈ rest := by
        rcases List.mem_cons.mp ha with h | h
        · exact absurd (h ▸ hm) h0
        · exact h
      rw [selectFirst, if_neg h0]
      exact ih ⟨a, har, hm⟩

/-- C5: empty selection rules never match any context, and consequently an
agent whose `selection_rules` is empty (or missing, modelled as `[]`) is
never the agent returned by `select_agent_for_request`. -/
theorem c5_confirmed :
    (∀ (doc_types : List (List Char)) (q : Option (List Char)),
       _matches_rules [] doc_types q = false) ∧
    (∀ (registry : List Agent) (relevant_docs : List Doc) (q : Option (List Char))
       (a : Agent) (r : Rules),
       select_agent_for_request registry relevant_docs q = some (a, r) →
       a.selection_rules ≠ [] ∧ r ≠ []) := by
  constructor
  · intro doc_types q; rfl
  · intro registry relevant_docs q a r h
    unfold select_agent_for_request at h
    by_cases he : (list_agents registry).isEmpty
    · simp [he] at h
    · simp only [he, if_neg, Bool.false_eq_true, not_false_iff, ite_false] at h
      have hs : List.Sorted agentLe (list_agents registry) :=
        List.sorted_insertionSort agentLe registry
      obtain ⟨hr, _, hma, _⟩ := selectFirst_spec hs h
      have hne : a.selection_rules ≠ [] := by
        intro hnil
        rw [hnil] at hma
        simp [_matches_rules] at hma
      exact ⟨hne, hr ▸ hne⟩

/-- C5 (witness): a concrete selection that returns an agent; its rules are
non-empty. -/
theorem c5_witness :
    agentDocs.selection_rules ≠ [] ∧ agentDocs.selection_rules ≠ [] :=
  c5_confirmed.2 [agentDocs] docsDocumentation (some []) agentDocs
    agentDocs.selection_rules (by decide)

/-- C2: whenever the rules of at least one stored agent match the context,
`select_agent_for_request` succeeds, and whatever it returns is a matching
agent paired with its own `selection_rules` whose id is minimal among all
matching agents of the registry — a later agent is never chosen over an
earlier matching one. -/
theorem c2_confirmed (registry : List Agent) (relevant_docs : List Doc)
    (q : Option (List Char))
    (hmatch : ∃ a ∈ registry,
      _matches_rules a.selection_rules (_doc_types_from_results relevant_docs) q = true) :
    (select_agent_for_request registry relevant_docs q).isSome = true ∧
    ∀ (a : Agent) (r : Rules),
      select_agent_for_request registry relevant_docs q = some (a, r) →
      r = a.selection_rules ∧ a ∈ registry ∧
      _matches_rules a.selection_rules (_doc_types_from_results relevant_docs) q = true ∧
      ∀ b ∈ registry,
        _matches_rules b.selection_rules (_doc_types_from_results relevant_docs) q = true →
        a.id ≤ b.id := by
  have hmem : ∃ a ∈ list_agents registry,
      _matches_rules a.selection_rules (_doc_types_from_results relevant_docs) q = true := by
    obtain ⟨a, ha, hm⟩ := hmatch
    exact ⟨a, by simpa [list_agents] using ha, hm⟩
  have hne : (list_agents registry).isEmpty = false := by
    obtain ⟨a, ha, _⟩ := hmem
    cases hl : list_agents registry with
    | nil => rw [hl] at ha; simp at ha
    | cons x xs => rfl
  have hs : List.Sorted agentLe (list_agents registry) :=
    List.sorted_insertionSort agentLe registry
  constructor
  · unfold select_agent_for_request
    simp only [hne, Bool.false_eq_true, not_false_iff, ite_false]
    exact selectFirst_isSome hmem
  · intro a r h
    unfold select_agent_for_request at h
    simp only [hne, Bool.false_eq_true, not_false_iff, ite_false] at h
    obtain ⟨hr, hmema, hma, hmin⟩ := selectFirst_spec hs h
    refine ⟨hr, by simpa [list_agents] using hmema, hma, ?_⟩
    intro b hb hmb
    exact hmin b (by simpa [list_agents] using hb) hmb

/-- C2 (witness): with two stored agents whose rules both match a
documentation retrieval, the one with the smaller id is selected. -/
theorem c2_witness :
    select_agent_for_request [agentBoth, agentDocs] docsDocumentation (some []) =
      some (agentDocs, agentDocs.selection_rules) ∧
    _matches_rules agentBoth.selection_rules
      (_doc_types_from_results docsDocumentation) (some []) = true ∧
    agentDocs.id ≤ agentBoth.id := by
  refine ⟨by decide, by decide, ?_⟩
  have h := (c2_confirmed [agentBoth, agentDocs] docsDocumentation (some [])
      ⟨agentDocs, by decide, by decide⟩).2 agentDocs agentDocs.selection_rules (by decide)
  exact h.2.2.2 agentBoth (by decide) (by decide)

/-- Helper: for a positive overlap parameter the overlap seed has at most
`chunk_overlap` characters. -/
lemma overlapFrom_length_le {co : Nat} (hco : 1 ≤ co) (prev : List Char) :
    (overlapFrom co prev).length ≤ co := by
  unfold overlapFrom pySliceLast
  by_cases h : prev.length > co
  · rw [if_pos h, if_neg (by omega)]
    rw [List.length_drop]
    omega
  · rw [if_neg h]
    omega

/-- Helper: one loop step keeps every completed chunk and the running buffer
within `chunk_size + chunk_overlap + 1` characters, provided the incoming
paragraph fits in `chunk_size` and the overlap parameter is positive. -/
lemma chunkStep_bound {cs co : Nat} (hco : 1 ≤ co)
    {st : List (List Char) × List Char} {p : List Char} (hp : p.length ≤ cs)
    (h1 : ∀ c ∈ st.1, c.length ≤ cs + co + 1) (h2 : st.2.length ≤ cs + co + 1) :
    (∀ c ∈ (chunkStep cs co st p).1, c.length ≤ cs + co + 1) ∧
      (chunkStep cs co st p).2.length ≤ cs + co + 1 := by
  have hmem : ∀ c ∈ (if st.2 = [] then st.1 else st.1 ++ [st.2]),
      c.length ≤ cs + co + 1 := by
    intro c hc
    by_cases hcur : st.2 = []
    · rw [if_pos hcur] at hc; exact h1 c hc
    · rw [if_neg hcur] at hc
      rcases List.mem_append.mp hc with h | h
      · exact h1 c h
      · rw [List.mem_singleton.mp h]; exact h2
  simp only [chunkStep]
  split
  · split
    case _ prev heq =>
      refine ⟨hmem, ?_⟩
      have := overlapFrom_length_le hco prev
      simp only [List.length_append, List.length_cons]
      omega
    case _ heq =>
      exact ⟨hmem, by dsimp only; omega⟩
  case _ hcond =>
    refine ⟨h1, ?_⟩
    by_cases hcur : st.2 = []
    · rw [if_pos hcur]; dsimp only; omega
    · rw [if_neg hcur]
      dsimp only
      simp only [List.length_append, List.length_cons]
      omega

/-- Helper: the loop invariant of `chunkStep_bound`, pushed through the whole
paragraph fold. -/
lemma foldl_chunkStep_bound {cs co : Nat} (hco : 1 ≤ co) :
    ∀ (ps : List (List Char)) (st : List (List Char) × List Char),
      (∀ p ∈ ps, p.length ≤ cs) →
      (∀ c ∈ st.1, c.length ≤ cs + co + 1) → st.2.length ≤ cs + co + 1 →
      (∀ c ∈ (ps.foldl (chunkStep cs co) st).1, c.length ≤ cs + co + 1) ∧
        (ps.foldl (chunkStep cs co) st).2.length ≤ cs + co + 1 := by
  intro ps
  induction ps with
  | nil => intro st _ h1 h2; exact ⟨h1, h2⟩
  | cons p ps ih =>
    intro st hp h1 h2
    have hstep := chunkStep_bound hco (hp p (List.mem_cons_self p ps)) h1 h2
    exact ih (chunkStep cs co st p)
      (fun x hx => hp x (List.mem_cons_of_mem p hx)) hstep.1 hstep.2

/-- C1 (amended): for `1 ≤ chunk_overlap < chunk_size`, a text longer than
`chunk_size` whose paragraphs all fit in `chunk_size` is split into chunks of
length at most `chunk_size + chunk_overlap + 1` (the overlap seed plus the
joining newline can exceed `chunk_size` itself, as the counterexample shows). -/
theorem c1_amended (gs : SettingsFetch) (text : List Char) (cs co : Nat)
    (hco1 : 1 ≤ co) (hco2 : co < cs) (hlen : cs < text.length)
    (hpar : ∀ p ∈ text.splitOn '\n', p.length ≤ cs) :
    ∀ c ∈ chunk_text gs text (some cs) (some co), c.length ≤ cs + co + 1 := by
  intro c hc
  have htext : text ≠ [] := by
    intro h
    rw [h] at hlen
    simp at hlen
  simp only [chunk_text, if_neg htext, resolveParams] at hc
  have hns : ¬ text.length ≤ cs := by omega
  simp only [chunk_core, if_neg hns] at hc
  have hfold := foldl_chunkStep_bound hco1 (text.splitOn '\n') ([], []) hpar
    (by intro x hx; simp at hx) (by simp)
  split at hc
  · exact hfold.1 c hc
  · rcases List.mem_append.mp hc with h | h
    · exact hfold.1 c h
    · rw [List.mem_singleton.mp h]
      exact hfold.2

/-- C1 (witness): the amended bound evaluated on the counterexample input;
the oversized second chunk indeed fits in `chunk_size + chunk_overlap + 1`. -/
theorem c1_witness :
    "aaaaa\nbbbbbbbbbb".data.length ≤ 10 + 5 + 1 :=
  c1_amended (Except.ok (500, 30)) "aaaaaaaaaa\nbbbbbbbbbb".data 10 5
    (by decide) (by decide) (by decide) (by decide)
    "aaaaa\nbbbbbbbbbb".data (by decide)

/-- Helper: one loop step preserves the seeding invariant: the completed
chunks are chained by `SeedRel`, the running buffer is seeded from the last
completed chunk, and completed chunks only exist while the buffer is
non-empty. -/
lemma chunkStep_seed {L : List (List Char)} {cs co : Nat}
    {st : List (List Char) × List Char} {p : List Char} (hp : p ∈ L)
    (h1 : st.1 ≠ [] → st.2 ≠ [])
    (h2 : List.Chain' (SeedRel L co) st.1)
    (h3 : ∀ x, st.1.getLast? = some x → SeedRel L co x st.2) :
    ((chunkStep cs co st p).1 ≠ [] → (chunkStep cs co st p).2 ≠ []) ∧
      List.Chain' (SeedRel L co) (chunkStep cs co st p).1 ∧
      ∀ x, (chunkStep cs co st p).1.getLast? = some x →
        SeedRel L co x (chunkStep cs co st p).2 := by
  simp only [chunkStep]
  by_cases hcond : st.2.length + p.length + 1 > cs
  · rw [if_pos hcond]
    by_cases hcur : st.2 = []
    · have hnil : st.1 = [] := by
        by_contra hne
        exact h1 hne hcur
      rw [if_pos hcur, hnil]
      simp only [List.getLast?_nil]
      refine ⟨fun h => absurd rfl h, List.chain'_nil, ?_⟩
      intro x hx
      exact absurd hx (by simp)
    · rw [if_neg hcur, List.getLast?_concat]
      dsimp only
      refine ⟨?_, ?_, ?_⟩
      · intro _
        simp
      · rw [List.chain'_append]
        refine ⟨h2, List.chain'_singleton st.2, ?_⟩
        intro x hx y hy
        rw [List.head?_cons, Option.mem_some_iff] at hy
        exact hy ▸ h3 x (Option.mem_def.mp hx)
      · intro x hx
        rw [List.getLast?_concat, Option.some.injEq] at hx
        exact hx ▸ ⟨p, hp, List.prefix_rfl⟩
  · rw [if_neg hcond]
    dsimp only
    refine ⟨?_, h2, ?_⟩
    · intro hne
      have := h1 hne
      rw [if_neg this]
      simp
    · intro x hx
      have hne : st.1 ≠ [] := by
        intro h
        rw [h] at hx
        simp at hx
      have hcur := h1 hne
      rw [if_neg hcur]
      obtain ⟨p0, hp0, hpre⟩ := h3 x hx
      exact ⟨p0, hp0, hpre.trans (List.prefix_append st.2 ('\n' :: p))⟩

/-- Helper: the seeding invariant pushed through the whole paragraph fold. -/
lemma foldl_chunkStep_seed {L : List (List Char)} {cs co : Nat} :
    ∀ (ps : List (List Char)) (st : List (List Char) × List Char),
      (∀ p ∈ ps, p ∈ L) →
      (st.1 ≠ [] → st.2 ≠ []) →
      List.Chain' (SeedRel L co) st.1 →
      (∀ x, st.1.getLast? = some x → SeedRel L co x st.2) →
      ((ps.foldl (chunkStep cs co) st).1 ≠ [] →
          (ps.foldl (chunkStep cs co) st).2 ≠ []) ∧
        List.Chain' (SeedRel L co) (ps.foldl (chunkStep cs co) st).1 ∧
        ∀ x, (ps.foldl (chunkStep cs co) st).1.getLast? = some x →
          SeedRel L co x (ps.foldl (chunkStep cs co) st).2 := by
  intro ps
  induction ps with
  | nil => intro st _ h1 h2 h3; exact ⟨h1, h2, h3⟩
  | cons p ps ih =>
    intro st hp h1 h2 h3
    obtain ⟨g1, g2, g3⟩ := chunkStep_seed (hp p (List.mem_cons_self p ps)) h1 h2 h3
    exact ih (chunkStep cs co st p)
      (fun x hx => hp x (List.mem_cons_of_mem p hx)) g1 g2 g3

/-- C6 (amended): in every result of `chunk_text`, each chunk after the first
begins with the overlap seed of the chunk immediately before it — the last
`chunk_overlap` characters of that chunk when it is longer than
`chunk_overlap` and `chunk_overlap ≥ 1`, otherwise (shorter chunk, or
`chunk_overlap = 0`, where Python `[-0:]` takes everything) the whole
previous chunk — followed by a newline, followed by one paragraph of the
text. -/
theorem c6_amended (gs : SettingsFetch) (text : List Char) (cs co : Nat) :
    List.Chain' (SeedRel (text.splitOn '\n') co)
      (chunk_text gs text (some cs) (some co)) := by
  by_cases htext : text = []
  · simp [chunk_text, htext]
  · simp only [chunk_text, if_neg htext, resolveParams]
    by_cases hshort : text.length ≤ cs
    · simp only [chunk_core, if_pos hshort]
      exact List.chain'_singleton text
    · simp only [chunk_core, if_neg hshort]
      obtain ⟨g1, g2, g3⟩ := foldl_chunkStep_seed (text.splitOn '\n') ([], [])
        (fun p hp => hp) (fun h => absurd rfl h) List.chain'_nil
        (by intro x hx; simp at hx)
      by_cases hcur : (List.foldl (chunkStep cs co) ([], []) (text.splitOn '\n')).2 = []
      · rw [if_pos hcur]
        exact g2
      · rw [if_neg hcur]
        rw [List.chain'_append]
        refine ⟨g2, List.chain'_singleton _, ?_⟩
        intro x hx y hy
        rw [List.head?_cons, Option.mem_some_iff] at hy
        exact hy ▸ g3 x (Option.mem_def.mp hx)

/-- Helper: unfolding of `strEntries` on a cons cell. -/
lemma strEntries_cons (x : PyPrim) (xs : List PyPrim) :
    strEntries (x :: xs) =
      match x with
      | PyPrim.str s => s :: strEntries xs
      | _ => strEntries xs := by
  cases x <;> rfl

/-- Helper: `any` over the string entries is `any` over the whole list with
non-string entries contributing `false`. -/
lemma strEntries_any (l : List PyPrim) (f : List Char → Bool) :
    (strEntries l).any f =
      l.any (fun t =>
        match t with
        | PyPrim.str s => f s
        | _ => false) := by
  induction l with
  | nil => rfl
  | cons x xs ih => cases x <;> simp [strEntries_cons, ih]

/-- Helper: `all` over the string entries is `all` over the whole list with
non-string entries contributing `true`. -/
lemma strEntries_all (l : List PyPrim) (f : List Char → Bool) :
    (strEntries l).all f =
      l.all (fun t =>
        match t with
        | PyPrim.str s => f s
        | _ => true) := by
  induction l with
  | nil => rfl
  | cons x xs ih => cases x <;> simp [strEntries_cons, ih]

/-- Helper: on a list of string entries, the doc-type check of the code (both
`any` loops, entries normalized by `str(t).lower()`) agrees with the
entry-first formulation that lower-cases only the entry. -/
lemma docType_any_eq (l : List PyPrim) (dts : List (List Char))
    (hstr : l.all isStrPrim = true) :
    dts.any (fun dt => l.any (fun t => lowerL (pyStr t) == dt)) =
      l.any (fun t =>
        match t with
        | PyPrim.str s => dts.any (fun dt => dt == lowerL s)
        | _ => false) := by
  rw [Bool.eq_iff_iff]
  simp only [List.any_eq_true]
  constructor
  · rintro ⟨dt, hdt, t, ht, hbeq⟩
    refine ⟨t, ht, ?_⟩
    have hs := List.all_eq_true.mp hstr t ht
    cases t with
    | str s =>
      rw [pyStr] at hbeq
      rw [Bool.beq_comm] at hbeq
      exact List.any_eq_true.mpr ⟨dt, hdt, hbeq⟩
    | int n => simp [isStrPrim] at hs
    | bool b => simp [isStrPrim] at hs
    | none => simp [isStrPrim] at hs
  · rintro ⟨t, ht, hmt⟩
    have hs := List.all_eq_true.mp hstr t ht
    cases t with
    | str s =>
      obtain ⟨dt, hdt, hbeq⟩ := List.any_eq_true.mp hmt
      rw [Bool.beq_comm] at hbeq
      exact ⟨dt, hdt, PyPrim.str s, ht, by rw [pyStr]; exact hbeq⟩
    | int n => simp [isStrPrim] at hs
    | bool b => simp [isStrPrim] at hs
    | none => simp [isStrPrim] at hs

/-- Helper: the `doc_type_any_of` check of the code agrees with the amended spec
formulation when the stored value, if present, is a list of strings. -/
lemma ruleDocType_eq_spec (rules : Rules) (dts : List (List Char))
    (h : (match pyGet rules "doc_type_any_of" with
          | some v => isStrList v
          | Option.none => true) = true) :
    ruleDocType rules dts = specDocTypeAmended rules dts := by
  unfold ruleDocType specDocTypeAmended
  cases hg : pyGet rules "doc_type_any_of" with
  | none => rfl
  | some v =>
    rw [hg] at h
    cases v with
    | prim p => simp [isStrList] at h
    | list l =>
      cases he : l.isEmpty with
      | true => simp [he]
      | false =>
        simp only [he, Bool.false_eq_true, if_false, Bool.false_or]
        exact docType_any_eq l dts (by simpa [isStrList] using h)

/-- Helper: the `keyword_any_of` check of the code agrees, via the filtered generator,
unconditionally with the claim-side formulation. -/
lemma ruleKwAny_eq_spec (rules : Rules) (q : List Char) :
    ruleKwAny rules (lowerL q) = specKwAny rules q := by
  unfold ruleKwAny specKwAny
  cases hg : pyGet rules "keyword_any_of" with
  | none => rfl
  | some v =>
    cases v with
    | prim p => rfl
    | list l =>
      cases he : l.isEmpty with
      | true => simp [he]
      | false =>
        simp only [he, Bool.false_eq_true, if_false, Bool.false_or]
        exact strEntries_any l (fun kw => inStr (lowerL kw) (lowerL q))

/-- Helper: the `keyword_all_of` check of the code agrees, via the filtered generator,
unconditionally with the claim-side formulation. -/
lemma ruleKwAll_eq_spec (rules : Rules) (q : List Char) :
    ruleKwAll rules (lowerL q) = specKwAll rules q := by
  unfold ruleKwAll specKwAll
  cases hg : pyGet rules "keyword_all_of" with
  | none => rfl
  | some v =>
    cases v with
    | prim p => rfl
    | list l =>
      cases he : l.isEmpty with
      | true => simp [he]
      | false =>
        simp only [he, Bool.false_eq_true, if_false, Bool.false_or]
        exact strEntries_all l (fun kw => inStr (lowerL kw) (lowerL q))

/-- C4 (amended): for a non-empty well-formed rules object (each of the three
keys, when present, holds a list of strings), `_matches_rules` is exactly the
conjunction of the three sub-conditions, where the keyword conditions are
case-insensitive substring tests on the query and the doc-type condition
lower-cases the rule entry and compares it with the `doc_types` entries as
given (not case-insensitively on both sides, as the counterexample shows). -/
theorem c4_amended (rules : Rules) (dts : List (List Char)) (q : List Char)
    (hne : rules.isEmpty = false) (hwf : wfRules rules = true) :
    _matches_rules rules dts (some q) = matchesAmendedC4 rules dts q := by
  simp only [wfRules, List.all_cons, List.all_nil, Bool.and_eq_true,
    Bool.and_true] at hwf
  unfold _matches_rules matchesAmendedC4
  rw [if_neg (by simp [hne])]
  simp only [Option.getD_some]
  rw [ruleDocType_eq_spec rules dts hwf.1, ruleKwAny_eq_spec, ruleKwAll_eq_spec]

/-- C4 (witness): on well-formed rules over a lower-cased doc-type list, the
code predicate and the amended spec predicate coincide (both true here). -/
theorem c4_witness :
    _matches_rules [("doc_type_any_of", PyVal.list [PyPrim.str "Course".data])]
      ["course".data] (some []) =
      matchesAmendedC4 [("doc_type_any_of", PyVal.list [PyPrim.str "Course".data])]
        ["course".data] [] :=
  c4_amended [("doc_type_any_of", PyVal.list [PyPrim.str "Course".data])]
    ["course".data] [] (by decide) (by decide)

/-- Helper: `setKey` preserves the emptiness of the rules object. -/
lemma setKey_isEmpty (rules : Rules) (k : String) (v : PyVal) :
    (setKey rules k v).isEmpty = rules.isEmpty := by
  cases rules <;> rfl

/-- Helper: after `setKey`, looking up the replaced key yields the new value
(provided the key was present). -/
lemma pyGet_setKey_self (rules : Rules) (k : String) (v : PyVal)
    (h : (pyGet rules k).isSome = true) :
    pyGet (setKey rules k v) k = some v := by
  induction rules with
  | nil => simp [pyGet] at h
  | cons kv rest ih =>
    have hmap : setKey (kv :: rest) k v =
        (if kv.1 == k then (kv.1, v) else kv) :: setKey rest k v := by
      unfold setKey
      rw [List.map_cons]
    by_cases hk : (kv.1 == k) = true
    · rw [hmap, if_pos hk]
      simp [pyGet, List.find?, hk]
    · rw [hmap, if_neg hk]
      have h2 : (pyGet rest k).isSome = true := by
        simp [pyGet, List.find?, hk] at h
        simpa [pyGet] using h
      have hgoal := ih h2
      simp [pyGet, List.find?, hk] at hgoal ⊢
      simpa [pyGet] using hgoal

/-- Helper: `setKey` does not change lookups of a different key. -/
lemma pyGet_setKey_other (rules : Rules) (k k2 : String) (v : PyVal)
    (hkk : k ≠ k2) :
    pyGet (setKey rules k v) k2 = pyGet rules k2 := by
  induction rules with
  | nil => rfl
  | cons kv rest ih =>
    have hmap : setKey (kv :: rest) k v =
        (if kv.1 == k then (kv.1, v) else kv) :: setKey rest k v := by
      unfold setKey
      rw [List.map_cons]
    by_cases hk : (kv.1 == k) = true
    · have hkv1 : kv.1 = k := by simpa using hk
      have h2 : (kv.1 == k2) = false := by
        rw [hkv1]
        exact beq_eq_false_iff_ne.mpr hkk
      rw [hmap, if_pos hk]
      have hgoal := ih
      simp [pyGet, List.find?, h2] at hgoal ⊢
      simpa [pyGet] using hgoal
    · rw [hmap, if_neg hk]
      by_cases h2 : (kv.1 == k2) = true
      · simp [pyGet, List.find?, h2]
      · have hgoal := ih
        simp [pyGet, List.find?, h2] at hgoal ⊢
        simpa [pyGet] using hgoal

/-- Helper: `_matches_rules` only looks at emptiness and the three checks. -/
lemma matches_ext (r1 r2 : Rules) (h0 : r1.isEmpty = r2.isEmpty)
    (h1 : ∀ dts, ruleDocType r1 dts = ruleDocType r2 dts)
    (h2 : ∀ uq, ruleKwAny r1 uq = ruleKwAny r2 uq)
    (h3 : ∀ uq, ruleKwAll r1 uq = ruleKwAll r2 uq)
    (dts : List (List Char)) (q : Option (List Char)) :
    _matches_rules r1 dts q = _matches_rules r2 dts q := by
  unfold _matches_rules
  rw [h0]
  simp only [h1, h2, h3]

/-- Helper: the doc-type check only depends on its own key. -/
lemma ruleDocType_congr {r1 r2 : Rules}
    (h : pyGet r1 "doc_type_any_of" = pyGet r2 "doc_type_any_of")
    (dts : List (List Char)) :
    ruleDocType r1 dts = ruleDocType r2 dts := by
  unfold ruleDocType
  rw [h]

/-- Helper: the `keyword_any_of` check only depends on its own key. -/
lemma ruleKwAny_congr {r1 r2 : Rules}
    (h : pyGet r1 "keyword_any_of" = pyGet r2 "keyword_any_of")
    (uq : List Char) :
    ruleKwAny r1 uq = ruleKwAny r2 uq := by
  unfold ruleKwAny
  rw [h]

/-- Helper: the `keyword_all_of` check only depends on its own key. -/
lemma ruleKwAll_congr {r1 r2 : Rules}
    (h : pyGet r1 "keyword_all_of" = pyGet r2 "keyword_all_of")
    (uq : List Char) :
    ruleKwAll r1 uq = ruleKwAll r2 uq := by
  unfold ruleKwAll
  rw [h]

/-- Helper: a non-list or empty-list value under `doc_type_any_of` makes that
check pass. -/
lemma ruleDocType_skip {r : Rules} {v : PyVal}
    (hg : pyGet r "doc_type_any_of" = some v) (hv : v.isList = false)
    (dts : List (List Char)) :
    ruleDocType r dts = true := by
  unfold ruleDocType
  rw [hg]
  cases v with
  | prim p => rfl
  | list l => simp [PyVal.isList] at hv

/-- Helper: an empty-list value under `doc_type_any_of` makes that check
pass. -/
lemma ruleDocType_emptyList {r : Rules}
    (hg : pyGet r "doc_type_any_of" = some (PyVal.list []))
    (dts : List (List Char)) :
    ruleDocType r dts = true := by
  unfold ruleDocType
  rw [hg]
  rfl

/-- Helper: a non-list value under `keyword_any_of` makes that check pass. -/
lemma ruleKwAny_skip {r : Rules} {v : PyVal}
    (hg : pyGet r "keyword_any_of" = some v) (hv : v.isList = false)
    (uq : List Char) :
    ruleKwAny r uq = true := by
  unfold ruleKwAny
  rw [hg]
  cases v with
  | prim p => rfl
  | list l => simp [PyVal.isList] at hv

/-- Helper: an empty-list value under `keyword_any_of` makes that check
pass. -/
lemma ruleKwAny_emptyList {r : Rules}
    (hg : pyGet r "keyword_any_of" = some (PyVal.list []))
    (uq : List Char) :
    ruleKwAny r uq = true := by
  unfold ruleKwAny
  rw [hg]
  rfl

/-- Helper: a non-list value under `keyword_all_of` makes that check pass. -/
lemma ruleKwAll_skip {r : Rules} {v : PyVal}
    (hg : pyGet r "keyword_all_of" = some v) (hv : v.isList = false)
    (uq : List Char) :
    ruleKwAll r uq = true := by
  unfold ruleKwAll
  rw [hg]
  cases v with
  | prim p => rfl
  | list l => simp [PyVal.isList] at hv

/-- Helper: an empty-list value under `keyword_all_of` makes that check
pass. -/
lemma ruleKwAll_emptyList {r : Rules}
    (hg : pyGet r "keyword_all_of" = some (PyVal.list []))
    (uq : List Char) :
    ruleKwAll r uq = true := by
  unfold ruleKwAll
  rw [hg]
  rfl

/-- C10: rule evaluation is total over malformed shapes.  (i) A `None` query
behaves as the empty string.  (ii) A rule key holding a non-list value is
skipped — replacing the value by the (vacuously true) empty list leaves the
result unchanged, for every context.  (iii) The keyword checks depend only
on the string entries of the list and on its emptiness; non-string entries
are ignored.  (iv) In particular a non-empty `keyword_all_of` list with no
string entry is vacuously satisfied: it behaves exactly like an empty one. -/
theorem c10_confirmed :
    (∀ (rules : Rules) (doc_types : List (List Char)),
       _matches_rules rules doc_types Option.none =
         _matches_rules rules doc_types (some [])) ∧
    (∀ (rules : Rules) (doc_types : List (List Char)) (q : Option (List Char))
       (k : String) (v : PyVal),
       k ∈ ["doc_type_any_of", "keyword_any_of", "keyword_all_of"] →
       pyGet rules k = some v → v.isList = false →
       _matches_rules rules doc_types q =
         _matches_rules (setKey rules k (PyVal.list [])) doc_types q) ∧
    (∀ (rules : Rules) (doc_types : List (List Char)) (q : Option (List Char))
       (k : String) (l l2 : List PyPrim),
       k ∈ ["keyword_any_of", "keyword_all_of"] →
       pyGet rules k = some (PyVal.list l) →
       strEntries l = strEntries l2 → l.isEmpty = l2.isEmpty →
       _matches_rules rules doc_types q =
         _matches_rules (setKey rules k (PyVal.list l2)) doc_types q) ∧
    (∀ (rules : Rules) (doc_types : List (List Char)) (q : Option (List Char))
       (l : List PyPrim),
       pyGet rules "keyword_all_of" = some (PyVal.list l) →
       l.isEmpty = false → strEntries l = [] →
       _matches_rules rules doc_types q =
         _matches_rules (setKey rules "keyword_all_of" (PyVal.list [])) doc_types q) := by
  refine ⟨fun rules doc_types => rfl, ?_, ?_, ?_⟩
  · intro rules doc_types q k v hk hg hv
    have hsome : (pyGet rules k).isSome = true := by simp [hg]
    simp at hk
    rcases hk with rfl | rfl | rfl
    · refine matches_ext _ _ (setKey_isEmpty ..).symm ?_ ?_ ?_ doc_types q
      · intro dts
        rw [ruleDocType_skip hg hv dts,
          ruleDocType_emptyList (pyGet_setKey_self _ _ _ hsome) dts]
      · exact fun uq =>
          ruleKwAny_congr (pyGet_setKey_other rules _ _ _ (by decide)).symm uq
      · exact fun uq =>
          ruleKwAll_congr (pyGet_setKey_other rules _ _ _ (by decide)).symm uq
    · refine matches_ext _ _ (setKey_isEmpty ..).symm ?_ ?_ ?_ doc_types q
      · exact fun dts =>
          ruleDocType_congr (pyGet_setKey_other rules _ _ _ (by decide)).symm dts
      · intro uq
        rw [ruleKwAny_skip hg hv uq,
          ruleKwAny_emptyList (pyGet_setKey_self _ _ _ hsome) uq]
      · exact fun uq =>
          ruleKwAll_congr (pyGet_setKey_other rules _ _ _ (by decide)).symm uq
    · refine matches_ext _ _ (setKey_isEmpty ..).symm ?_ ?_ ?_ doc_types q
      · exact fun dts =>
          ruleDocType_congr (pyGet_setKey_other rules _ _ _ (by decide)).symm dts
      · exact fun uq =>
          ruleKwAny_congr (pyGet_setKey_other rules _ _ _ (by decide)).symm uq
      · intro uq
        rw [ruleKwAll_skip hg hv uq,
          ruleKwAll_emptyList (pyGet_setKey_self _ _ _ hsome) uq]
  · intro rules doc_types q k l l2 hk hg hst hemp
    have hsome : (pyGet rules k).isSome = true := by simp [hg]
    simp at hk
    rcases hk with rfl | rfl
    · refine matches_ext _ _ (setKey_isEmpty ..).symm ?_ ?_ ?_ doc_types q
      · exact fun dts =>
          ruleDocType_congr (pyGet_setKey_other rules _ _ _ (by decide)).symm dts
      · intro uq
        unfold ruleKwAny
        rw [hg, pyGet_setKey_self _ _ _ hsome]
        simp only [hemp, hst]
      · exact fun uq =>
          ruleKwAll_congr (pyGet_setKey_other rules _ _ _ (by decide)).symm uq
    · refine matches_ext _ _ (setKey_isEmpty ..).symm ?_ ?_ ?_ doc_types q
      · exact fun dts =>
          ruleDocType_congr (pyGet_setKey_other rules _ _ _ (by decide)).symm dts
      · exact fun uq =>
          ruleKwAny_congr (pyGet_setKey_other rules _ _ _ (by decide)).symm uq
      · intro uq
        unfold ruleKwAll
        rw [hg, pyGet_setKey_self _ _ _ hsome]
        simp only [hemp, hst]
  · intro rules doc_types q l hg hne hst
    have hsome : (pyGet rules "keyword_all_of").isSome = true := by simp [hg]
    refine matches_ext _ _ (setKey_isEmpty ..).symm ?_ ?_ ?_ doc_types q
    · exact fun dts =>
        ruleDocType_congr (pyGet_setKey_other rules _ _ _ (by decide)).symm dts
    · exact fun uq =>
        ruleKwAny_congr (pyGet_setKey_other rules _ _ _ (by decide)).symm uq
    · intro uq
      rw [ruleKwAll_emptyList (pyGet_setKey_self _ _ _ hsome) uq]
      unfold ruleKwAll
      rw [hg]
      simp [hne, hst]

/-- C10 (witness): a non-empty `keyword_all_of` list with only an integer
entry behaves exactly like an empty one. -/
theorem c10_witness :
    _matches_rules [("keyword_all_of", PyVal.list [PyPrim.int 5])] [] (some []) =
      _matches_rules (setKey [("keyword_all_of", PyVal.list [PyPrim.int 5])]
        "keyword_all_of" (PyVal.list [])) [] (some []) :=
  c10_confirmed.2.2.2 [("keyword_all_of", PyVal.list [PyPrim.int 5])] [] (some [])
    [PyPrim.int 5] rfl rfl rfl

end RagAgent
